import Mathlib

/-!
# Verification of the skeletal FK / walk-cycle / geometry-extraction core

Shallow embedding of `src/main.cpp` (OpenGL skeleton walk demo): the
Bone/Skeleton data model, `addBone`, `rotXYZ`, `updateGlobals` (forward
kinematics), `makeHuman`, `buildSkeletonLines`, `buildHeadSphereTris` and
`animateWalk`, with floats modelled by real numbers and 4x4 GLM matrices by
`Matrix (Fin 4) (Fin 4) ℝ`.  Out-of-bounds `std::vector` indexing (undefined
behaviour in C++) is modelled by `Option` failure in `animateWalk` (which has
no size guard in the source) and by a junk `default` bone in `updateGlobals`
(whose accesses are in bounds for every valid hierarchy, as proved below).
-/

noncomputable section

namespace Skel

/-- glm::vec3 with real components. -/
@[ext] structure Vec3 where
  x : ℝ
  y : ℝ
  z : ℝ

namespace Vec3

instance : Zero Vec3 := ⟨⟨0, 0, 0⟩⟩

instance : Add Vec3 := ⟨fun a b => ⟨a.x + b.x, a.y + b.y, a.z + b.z⟩⟩

instance : Sub Vec3 := ⟨fun a b => ⟨a.x - b.x, a.y - b.y, a.z - b.z⟩⟩

instance : SMul ℝ Vec3 := ⟨fun r a => ⟨r * a.x, r * a.y, r * a.z⟩⟩

@[simp] theorem zero_x : (0 : Vec3).x = 0 := rfl

@[simp] theorem zero_y : (0 : Vec3).y = 0 := rfl

@[simp] theorem zero_z : (0 : Vec3).z = 0 := rfl

@[simp] theorem add_x (a b : Vec3) : (a + b).x = a.x + b.x := rfl

@[simp] theorem add_y (a b : Vec3) : (a + b).y = a.y + b.y := rfl

@[simp] theorem add_z (a b : Vec3) : (a + b).z = a.z + b.z := rfl

@[simp] theorem sub_x (a b : Vec3) : (a - b).x = a.x - b.x := rfl

@[simp] theorem sub_y (a b : Vec3) : (a - b).y = a.y - b.y := rfl

@[simp] theorem sub_z (a b : Vec3) : (a - b).z = a.z - b.z := rfl

@[simp] theorem smul_x (r : ℝ) (a : Vec3) : (r • a).x = r * a.x := rfl

@[simp] theorem smul_y (r : ℝ) (a : Vec3) : (r • a).y = r * a.y := rfl

@[simp] theorem smul_z (r : ℝ) (a : Vec3) : (r • a).z = r * a.z := rfl

end Vec3

/-- Euclidean dot product of two `Vec3`s (glm::dot). -/
def dot3 (a b : Vec3) : ℝ := a.x * b.x + a.y * b.y + a.z * b.z

/-- Euclidean norm of a `Vec3` (glm::length). -/
def norm3 (v : Vec3) : ℝ := Real.sqrt (dot3 v v)

/-- glm::normalize: `v / |v|`. -/
def normalize3 (v : Vec3) : Vec3 := (norm3 v)⁻¹ • v

/-- A 4x4 real matrix, modelling glm::mat4 (acting on column vectors). -/
abbrev Mat4 := Matrix (Fin 4) (Fin 4) ℝ

/-- glm::translate(mat4(1), v). -/
def translate (v : Vec3) : Mat4 :=
  !![1, 0, 0, v.x;
     0, 1, 0, v.y;
     0, 0, 1, v.z;
     0, 0, 0, 1]

/-- glm::rotate(mat4(1), a, ⟨1,0,0⟩): rotation about the X axis (radians). -/
def rotX (a : ℝ) : Mat4 :=
  !![1, 0, 0, 0;
     0, Real.cos a, -Real.sin a, 0;
     0, Real.sin a, Real.cos a, 0;
     0, 0, 0, 1]

/-- glm::rotate(mat4(1), a, ⟨0,1,0⟩): rotation about the Y axis (radians). -/
def rotY (a : ℝ) : Mat4 :=
  !![Real.cos a, 0, Real.sin a, 0;
     0, 1, 0, 0;
     -Real.sin a, 0, Real.cos a, 0;
     0, 0, 0, 1]

/-- glm::rotate(mat4(1), a, ⟨0,0,1⟩): rotation about the Z axis (radians). -/
def rotZ (a : ℝ) : Mat4 :=
  !![Real.cos a, -Real.sin a, 0, 0;
     Real.sin a, Real.cos a, 0, 0;
     0, 0, 1, 0;
     0, 0, 0, 1]

/-- glm::radians, degree-to-radian conversion. -/
def radians (deg : ℝ) : ℝ := deg * Real.pi / 180

/-- `Skeleton::rotXYZ` from the source: `r = radians(deg)` componentwise,
then `Rz * Ry * Rx` ("XYZ intrinsic"). -/
def rotXYZ (deg : Vec3) : Mat4 :=
  rotZ (radians deg.z) * rotY (radians deg.y) * rotX (radians deg.x)

/-- One `Bone` of the hierarchy, mirroring `struct Bone` in the source:
`parent` is `-1` for the root, `bindOffset` the bind-pose offset from the
parent joint, `eulerDeg` the current local XYZ rotation in degrees,
`length` the visual length, `global` the world-space transform. -/
structure Bone where
  parent : ℤ
  bindOffset : Vec3
  eulerDeg : Vec3
  length : ℝ
  global : Mat4

/-- Junk bone used to model C++ undefined behaviour on out-of-bounds
vector access (all in-contract accesses proved in range never see it). -/
instance : Inhabited Bone := ⟨⟨-1, 0, 0, 0, 1⟩⟩

/-- The `Skeleton`: an ordered bone array. -/
structure Skeleton where
  bones : List Bone

/-- `Skeleton::addBone`: appends a zero-rotation bone with identity global
transform and returns (updated skeleton, index of the new bone).  Note the
source performs NO validation of the `parent` argument. -/
def addBone (s : Skeleton) (parent : ℤ) (bindOffset : Vec3) (length : ℝ) :
    Skeleton × ℤ :=
  (⟨s.bones ++ [⟨parent, bindOffset, 0, length, 1⟩]⟩, (s.bones.length : ℤ))

/-- The joint position of a bone: translation column of `global`
(`jointPos` in the source, `vec3(b.global[3])`). -/
def jointPos (b : Bone) : Vec3 := ⟨b.global 0 3, b.global 1 3, b.global 2 3⟩

/-- World image of a direction vector: `vec3(M * vec4(v, 0))`. -/
def mulDir (M : Mat4) (v : Vec3) : Vec3 :=
  ⟨M 0 0 * v.x + M 0 1 * v.y + M 0 2 * v.z,
   M 1 0 * v.x + M 1 1 * v.y + M 1 2 * v.z,
   M 2 0 * v.x + M 2 1 * v.y + M 2 2 * v.z⟩

/-- World image of a point: `vec3(M * vec4(v, 1))`. -/
def mulPoint (M : Mat4) (v : Vec3) : Vec3 :=
  ⟨M 0 0 * v.x + M 0 1 * v.y + M 0 2 * v.z + M 0 3,
   M 1 0 * v.x + M 1 1 * v.y + M 1 2 * v.z + M 1 3,
   M 2 0 * v.x + M 2 1 * v.y + M 2 2 * v.z + M 2 3⟩

/-- `endpointPos` from the source: `b.global * vec4(0, -b.length, 0, 1)`. -/
def endpointPos (b : Bone) : Vec3 := mulPoint b.global ⟨0, -b.length, 0⟩

/-- The local affine transform of a bone, `T * R` in `updateGlobals`. -/
def localMat (b : Bone) : Mat4 := translate b.bindOffset * rotXYZ b.eulerDeg

/-- Body of iteration `i` of the `updateGlobals` loop: recompute
`bones[i].global` from its parent's (already updated) global transform.
The parent access `bones[p]` is UB in C++ when `p` is out of range; here it
falls back to the junk `default` bone (never reached for valid parents). -/
def updateStep (bs : List Bone) (i : ℕ) : List Bone :=
  match bs[i]? with
  | none => bs
  | some b =>
    let g := if 0 ≤ b.parent
      then (bs.getD b.parent.toNat default).global * localMat b
      else localMat b
    bs.set i { b with global := g }

/-- `Skeleton::updateGlobals`: a single increasing-index sweep refreshing
every bone's `global`. -/
def updateGlobals (s : Skeleton) : Skeleton :=
  ⟨(List.range s.bones.length).foldl updateStep s.bones⟩

/-- Valid hierarchy invariant: every bone is a root (`parent = -1`) or has a
parent with a strictly smaller index. -/
def ValidParents (s : Skeleton) : Prop :=
  ∀ i, i < s.bones.length →
    (s.bones.getD i default).parent = -1 ∨
    (0 ≤ (s.bones.getD i default).parent ∧
      (s.bones.getD i default).parent < (i : ℤ))

/-- `makeHuman` from the source: the fixed 16-bone rig (pelvis root, spine,
neck, head, two 3-joint legs, two 3-joint arms), built with `addBone`. -/
def makeHuman : Skeleton :=
  let pelvisH : ℝ := 1.0
  let spineLen : ℝ := 0.4
  let neckLen : ℝ := 0.1
  let headLen : ℝ := 0.22
  let upperLeg : ℝ := 0.45
  let lowerLeg : ℝ := 0.45
  let footLen : ℝ := 0.18
  let upperArm : ℝ := 0.30
  let lowerArm : ℝ := 0.30
  let handLen : ℝ := 0.12
  let hipWidth : ℝ := 0.18
  let shoulderWidth : ℝ := 0.28
  let s : Skeleton := ⟨[]⟩
  let r0 := addBone s (-1) ⟨0, pelvisH + 0.30, 0⟩ 0.0
  let root := r0.2
  let r1 := addBone r0.1 root ⟨0, 0.0, 0⟩ spineLen
  let spine := r1.2
  let r2 := addBone r1.1 spine ⟨0, spineLen, 0⟩ neckLen
  let neck := r2.2
  let r3 := addBone r2.1 neck ⟨0, neckLen, 0⟩ headLen
  let r4 := addBone r3.1 root ⟨hipWidth * 0.5, -0.30, 0⟩ upperLeg
  let hipL := r4.2
  let r5 := addBone r4.1 hipL ⟨0, -upperLeg, 0⟩ lowerLeg
  let kneeL := r5.2
  let r6 := addBone r5.1 kneeL ⟨0, -lowerLeg, 0⟩ footLen
  let r7 := addBone r6.1 root ⟨-(hipWidth * 0.5), -0.30, 0⟩ upperLeg
  let hipR := r7.2
  let r8 := addBone r7.1 hipR ⟨0, -upperLeg, 0⟩ lowerLeg
  let kneeR := r8.2
  let r9 := addBone r8.1 kneeR ⟨0, -lowerLeg, 0⟩ footLen
  let r10 := addBone r9.1 spine ⟨shoulderWidth * 0.5, spineLen, 0⟩ upperArm
  let shoulderL := r10.2
  let r11 := addBone r10.1 shoulderL ⟨0, -upperArm, 0⟩ lowerArm
  let elbowL := r11.2
  let r12 := addBone r11.1 elbowL ⟨0, -lowerArm, 0⟩ handLen
  let r13 := addBone r12.1 spine ⟨-(shoulderWidth * 0.5), spineLen, 0⟩ upperArm
  let shoulderR := r13.2
  let r14 := addBone r13.1 shoulderR ⟨0, -upperArm, 0⟩ lowerArm
  let elbowR := r14.2
  let r15 := addBone r14.1 elbowR ⟨0, -lowerArm, 0⟩ handLen
  r15.1

/-- A line-list vertex: position and colour (`struct LineVertex`). -/
structure LineVertex where
  pos : Vec3
  col : Vec3

/-- A triangle-list vertex: position and colour (`struct TriVertex`). -/
structure TriVertex where
  pos : Vec3
  col : Vec3

/-- The bone line colour from `buildSkeletonLines`. -/
def boneColor : Vec3 := ⟨1.0, 0.9, 0.4⟩

/-- Iteration `k` (for `i = k - 20`, the source loops `i = -20 .. 20`) of
the ground-grid loop of `buildSkeletonLines`: two perpendicular segments
(four vertices), brighter every 5th line, over the `G = 2`, `N = 20`,
0.1-spaced XZ grid. -/
def gridLines (k : ℕ) : List LineVertex :=
  let i : ℤ := (k : ℤ) - 20
  let t : ℝ := if i % 5 = 0 then 0.2 else 0.08
  let c : Vec3 := ⟨t, t, t⟩
  [⟨⟨(i : ℝ) * 0.1, 0, -2⟩, c⟩, ⟨⟨(i : ℝ) * 0.1, 0, 2⟩, c⟩,
   ⟨⟨-2, 0, (i : ℝ) * 0.1⟩, c⟩, ⟨⟨2, 0, (i : ℝ) * 0.1⟩, c⟩]

/-- `buildSkeletonLines`: one segment (two vertices) per rendered bone —
skipping bones with `length ≤ 0.001`, index 0 (root) and index 3 (head) —
followed by the ground grid: 41 loop iterations, each appending two
segments. -/
def buildSkeletonLines (s : Skeleton) : List LineVertex :=
  ((List.range s.bones.length).flatMap fun i =>
    let b := s.bones.getD i default
    if b.length ≤ 0.001 then []
    else if i = 0 then []
    else if i = 3 then []
    else [⟨jointPos b, boneColor⟩, ⟨endpointPos b, boneColor⟩]) ++
  (List.range 41).flatMap gridLines

/-- The head colour from `buildHeadSphereTris`. -/
def headColor : Vec3 := ⟨0.95, 0.75, 0.25⟩

/-- The head bone, slot 3 of the rig (read only after the size guard). -/
def headBone (s : Skeleton) : Bone := s.bones.getD 3 default

/-- Head sphere radius: `head.length * 0.6`. -/
def headRadius (s : Skeleton) : ℝ := (headBone s).length * 0.6

/-- World up-axis of the head bone: `normalize(vec3(head.global * vec4(0,1,0,0)))`. -/
def headUp (s : Skeleton) : Vec3 := normalize3 (mulDir (headBone s).global ⟨0, 1, 0⟩)

/-- Head sphere centre: neck base plus `radius` along the head up-axis. -/
def headCenter (s : Skeleton) : Vec3 :=
  jointPos (headBone s) + headRadius s • headUp s

/-- The UV-sphere sample point of stack ring `i`, slice `j`
(`ring[j]` at iteration `i` of the generator loop): latitude/longitude
coordinates on the unit sphere expressed in the head bone's (normalized)
world basis, scaled by the radius, around the centre.  The basis vectors
`X`/`Y`/`Z` are loop-invariant in the source and hoisted here. -/
def spherePoint (s : Skeleton) (nStacks nSlices : ℕ) (i j : ℕ) : Vec3 :=
  let head := headBone s
  let v : ℝ := (i : ℝ) / (nStacks : ℝ)
  let phi : ℝ := v * Real.pi
  let sy : ℝ := Real.cos phi
  let sr : ℝ := Real.sin phi
  let u : ℝ := (j : ℝ) / (nSlices : ℝ)
  let theta : ℝ := u * (2 * Real.pi)
  let sx : ℝ := sr * Real.cos theta
  let sz : ℝ := sr * Real.sin theta
  let X := normalize3 (mulDir head.global ⟨1, 0, 0⟩)
  let Y := headUp s
  let Z := normalize3 (mulDir head.global ⟨0, 0, 1⟩)
  headCenter s + headRadius s • (sx • X + sy • Y + sz • Z)

/-- `buildHeadSphereTris`: empty if the skeleton has no slot-3 bone
(`bones.size() <= 3`), otherwise two triangles per quad cell between
adjacent latitude rings (the source's `prev` ring at stack `i` is ring
`i`, the current ring is `i+1`). -/
def buildHeadSphereTris (s : Skeleton) (nStacks : ℕ := 16) (nSlices : ℕ := 24) :
    List TriVertex :=
  if s.bones.length ≤ 3 then []
  else
    (List.range nStacks).flatMap fun i =>
      (List.range nSlices).flatMap fun j =>
        let p00 := spherePoint s nStacks nSlices i j
        let p01 := spherePoint s nStacks nSlices i (j + 1)
        let p10 := spherePoint s nStacks nSlices (i + 1) j
        let p11 := spherePoint s nStacks nSlices (i + 1) (j + 1)
        [⟨p00, headColor⟩, ⟨p10, headColor⟩, ⟨p11, headColor⟩,
         ⟨p00, headColor⟩, ⟨p11, headColor⟩, ⟨p01, headColor⟩]

/-- The animator's phase: `t * walkSpeed * two_pi` with `walkSpeed = 1.6`
steps per second. -/
def walkPhase (t : ℝ) : ℝ := t * 1.6 * (2 * Real.pi)

/-- The `setR` helper of `animateWalk`: overwrite `bones[idx].eulerDeg`.
The source indexes the vector unconditionally, which is UB when `idx` is
out of range; modelled as `Option` failure. -/
def setR (s : Skeleton) (idx : ℕ) (r : Vec3) : Option Skeleton :=
  if idx < s.bones.length then
    some ⟨s.bones.set idx { s.bones.getD idx default with eulerDeg := r }⟩
  else none

/-- Arm writes of `animateWalk` (bones 10..15: shoulder/elbow/wrist, left
then right), followed by the re-evaluation of forward kinematics that ends
the animator.  `animateWalk` is one straight-line C++ function; it is split
here into three sequenced pieces (torso, legs, arms) purely so each Lean
definition stays small — composing them is exactly the source's statement
order. -/
def walkArms (s : Skeleton) (phase : ℝ) : Option Skeleton :=
  let pi := Real.pi
  (setR s 10 ⟨35 * Real.sin (phase + pi), 0, 0⟩).bind fun s10 =>
  (setR s10 11 ⟨-(10 * max 0 (Real.sin (phase + pi))), 0, 0⟩).bind fun s11 =>
  (setR s11 12 ⟨5 * Real.sin (phase + 1.0), 0, 0⟩).bind fun s12 =>
  (setR s12 13 ⟨-(35 * Real.sin (phase + pi)), 0, 0⟩).bind fun s13 =>
  (setR s13 14 ⟨-(10 * max 0 (Real.sin phase)), 0, 0⟩).bind fun s14 =>
  (setR s14 15 ⟨5 * Real.sin (phase + pi + 1.0), 0, 0⟩).bind fun s15 =>
  some (updateGlobals s15)

/-- Leg writes of `animateWalk` (bones 4..9: hip/knee/ankle, left then
right), continuing with the arm writes. -/
def walkLegs (s : Skeleton) (phase : ℝ) : Option Skeleton :=
  let pi := Real.pi
  (setR s 4 ⟨30 * Real.sin phase, 0, 0⟩).bind fun s4 =>
  (setR s4 5 ⟨-(25 * max 0 (Real.sin phase)), 0, 0⟩).bind fun s5 =>
  (setR s5 6 ⟨5 * Real.sin (phase + 0.4), 0, 0⟩).bind fun s6 =>
  (setR s6 7 ⟨-(30 * Real.sin phase), 0, 0⟩).bind fun s7 =>
  (setR s7 8 ⟨-(25 * max 0 (Real.sin (phase + pi))), 0, 0⟩).bind fun s8 =>
  (setR s8 9 ⟨5 * Real.sin (phase + pi + 0.4), 0, 0⟩).bind fun s9 =>
  walkArms s9 phase

/-- `animateWalk`: write the walk-cycle pose for time `t` into bones
0..15 — root, spine, neck and head here (all at half frequency), then the
legs and arms via `walkLegs`/`walkArms` — and finally re-evaluate forward
kinematics.  The source indexes all 16 bones with no size guard; an
out-of-range write is UB in C++ and yields `none` here. -/
def animateWalk (s : Skeleton) (t : ℝ) : Option Skeleton :=
  let phase := walkPhase t
  (setR s 0 ⟨0, 0, 3 * Real.sin (phase * 0.5)⟩).bind fun s0 =>
  (setR s0 1 ⟨5 * Real.sin (phase * 0.5), 0, 0⟩).bind fun s1 =>
  (setR s1 2 ⟨-3 * Real.sin (phase * 0.5), 0, 0⟩).bind fun s2 =>
  (setR s2 3 ⟨2 * Real.sin (phase * 0.5), 0, 0⟩).bind fun s3 =>
  walkLegs s3 phase

/-- The per-bone rotation state of a skeleton (its "rotation set"). -/
def rotationsOf (s : Skeleton) : List Vec3 := s.bones.map Bone.eulerDeg

/-! ## Forward-kinematics infrastructure -/

/-- The world transform the FK sweep ends up storing for bone `i`, as a
strong recursion over the (pre-sweep) bone array: the local transform for a
root, the parent's world transform times the local transform when the
parent index points strictly below `i`. -/
def worldOf (bs : List Bone) (i : ℕ) : Mat4 :=
  match bs[i]? with
  | none => 1
  | some b =>
    if 0 ≤ b.parent then
      (if h : b.parent.toNat < i then worldOf bs b.parent.toNat else 1) * localMat b
    else localMat b
termination_by i
decreasing_by exact h

/-- Setting an entry to the value it already holds is a no-op. -/
theorem set_getElem?_self {α : Type} (l : List α) (i : ℕ) (a : α)
    (h : l[i]? = some a) : l.set i a = l := by
  apply List.ext_getElem?
  intro j
  rcases eq_or_ne j i with rfl | hj
  · rw [List.getElem?_set_self (List.getElem?_eq_some.mp h).1, h]
  · exact List.getElem?_set_ne (Ne.symm hj)

/-- `updateStep` preserves the length of the bone array. -/
theorem updateStep_length (bs : List Bone) (i : ℕ) :
    (updateStep bs i).length = bs.length := by
  unfold updateStep
  cases h : bs[i]? <;> simp

/-- `updateStep` only writes the `global` field: every projection that
ignores `global` is preserved. -/
theorem updateStep_map {α : Type} (f : Bone → α)
    (hf : ∀ b M, f { b with global := M } = f b) (bs : List Bone) (i : ℕ) :
    (updateStep bs i).map f = bs.map f := by
  unfold updateStep
  cases h : bs[i]? with
  | none => rfl
  | some b =>
    simp only [List.map_set, hf]
    exact set_getElem?_self _ _ _ (by rw [List.getElem?_map, h]; rfl)

/-- `updateGlobals` preserves every projection that ignores `global`. -/
theorem updateGlobals_map {α : Type} (f : Bone → α)
    (hf : ∀ b M, f { b with global := M } = f b) (s : Skeleton) :
    (updateGlobals s).bones.map f = s.bones.map f := by
  unfold updateGlobals
  generalize List.range s.bones.length = idxs
  induction idxs generalizing s with
  | nil => rfl
  | cons i is ih =>
    show ((List.foldl updateStep (updateStep s.bones i) is)).map f = _
    rw [show updateStep s.bones i = Skeleton.bones ⟨updateStep s.bones i⟩ from rfl] at *
    rw [ih ⟨updateStep s.bones i⟩]
    exact updateStep_map f hf s.bones i

/-- `updateGlobals` preserves the number of bones. -/
theorem updateGlobals_length (s : Skeleton) :
    (updateGlobals s).bones.length = s.bones.length := by
  have := updateGlobals_map (fun _ => Unit.unit) (fun _ _ => rfl) s
  simpa using congrArg List.length this

/-- Any partial FK sweep preserves the length of the bone array. -/
theorem foldl_updateStep_length (l : List ℕ) (bs : List Bone) :
    (l.foldl updateStep bs).length = bs.length := by
  induction l generalizing bs with
  | nil => rfl
  | cons i is ih => rw [List.foldl_cons, ih, updateStep_length]

/-- Unfolding equation for `worldOf` at an in-range index. -/
theorem worldOf_some (bs : List Bone) (i : ℕ) (b : Bone) (hb : bs[i]? = some b) :
    worldOf bs i =
      if 0 ≤ b.parent then
        (if h : b.parent.toNat < i then worldOf bs b.parent.toNat else 1) * localMat b
      else localMat b := by
  rw [worldOf, hb]

/-- Invariant of the `updateGlobals` sweep after the first `k` iterations:
entries from `k` on are untouched, entries below `k` hold their original
fields with `global` replaced by `worldOf`. -/
theorem fold_invariant (s : Skeleton) (hv : ValidParents s) :
    ∀ k, k ≤ s.bones.length →
      (∀ j, k ≤ j →
        ((List.range k).foldl updateStep s.bones)[j]? = s.bones[j]?) ∧
      (∀ j, j < k →
        ((List.range k).foldl updateStep s.bones)[j]? =
          s.bones[j]?.map fun b => { b with global := worldOf s.bones j }) := by
  intro k
  induction k with
  | zero => exact fun _ => ⟨fun j _ => rfl, fun j hj => absurd hj (Nat.not_lt_zero j)⟩
  | succ k ih =>
    intro hk1
    have hk : k ≤ s.bones.length := Nat.le_of_succ_le hk1
    have hklt : k < s.bones.length := hk1
    obtain ⟨ih1, ih2⟩ := ih hk
    set F := (List.range k).foldl updateStep s.bones with hF
    have hFlen : F.length = s.bones.length := foldl_updateStep_length _ _
    have hstep : (List.range (k + 1)).foldl updateStep s.bones = updateStep F k := by
      rw [List.range_succ, List.foldl_append, List.foldl_cons, List.foldl_nil]
    obtain ⟨b, hbk⟩ : ∃ b, s.bones[k]? = some b :=
      ⟨_, List.getElem?_eq_getElem hklt⟩
    have hFk : F[k]? = some b := by rw [ih1 k le_rfl]; exact hbk
    have hstep' : updateStep F k =
        F.set k { b with global :=
          (if 0 ≤ b.parent
            then (F.getD b.parent.toNat default).global * localMat b
            else localMat b) } := by
      unfold updateStep
      rw [hFk]
    have hworld : (if 0 ≤ b.parent
        then (F.getD b.parent.toNat default).global * localMat b
        else localMat b) = worldOf s.bones k := by
      have hvk := hv k hklt
      rw [List.getD_eq_getElem?_getD, hbk] at hvk
      simp only [Option.getD_some] at hvk
      rw [worldOf_some s.bones k b hbk]
      rcases hvk with hroot | ⟨hge, hlt⟩
      · rw [if_neg (by rw [hroot]; norm_num), if_neg (by rw [hroot]; norm_num)]
      · have hplt : b.parent.toNat < k := by omega
        have hpn : b.parent.toNat < s.bones.length := lt_of_lt_of_le hplt hk
        rw [if_pos hge, if_pos hge, dif_pos hplt]
        have hgetp : F.getD b.parent.toNat default =
            { s.bones[b.parent.toNat] with
              global := worldOf s.bones b.parent.toNat } := by
          rw [List.getD_eq_getElem?_getD, ih2 _ hplt, List.getElem?_eq_getElem hpn]
          rfl
        rw [hgetp]
    refine ⟨fun j hj => ?_, fun j hj => ?_⟩
    · rw [hstep, hstep', List.getElem?_set_ne (by omega), ih1 j (by omega)]
    · rcases Nat.lt_succ_iff_lt_or_eq.mp hj with hjk | rfl
      · rw [hstep, hstep', List.getElem?_set_ne (by omega), ih2 j hjk]
      · rw [hstep, hstep', List.getElem?_set_self (by omega), hworld, hbk]
        rfl

/-- After `updateGlobals`, entry `j` holds its original fields with
`global` replaced by the FK world transform `worldOf`. -/
theorem updateGlobals_getElem? (s : Skeleton) (hv : ValidParents s) (j : ℕ)
    (hj : j < s.bones.length) :
    (updateGlobals s).bones[j]? =
      s.bones[j]?.map fun b => { b with global := worldOf s.bones j } := by
  exact (fold_invariant s hv s.bones.length le_rfl).2 j hj

/-- After `updateGlobals`, the `global` of bone `j` is `worldOf`. -/
theorem updateGlobals_global (s : Skeleton) (hv : ValidParents s) (j : ℕ)
    (hj : j < s.bones.length) :
    ((updateGlobals s).bones.getD j default).global = worldOf s.bones j := by
  rw [List.getD_eq_getElem?_getD, updateGlobals_getElem? s hv j hj,
    List.getElem?_eq_getElem hj]
  rfl

/-! ## Basic matrix facts -/

/-- Composing translations adds the offsets. -/
theorem translate_mul_translate (u v : Vec3) :
    translate u * translate v = translate (u + v) := by
  ext i j
  fin_cases i <;> fin_cases j <;>
    simp [translate, Matrix.mul_apply, Fin.sum_univ_four, Matrix.vecHead,
      Matrix.vecTail] <;> ring

/-- Zero-angle X rotation is the identity. -/
theorem rotX_zero : rotX 0 = 1 := by
  ext i j
  fin_cases i <;> fin_cases j <;>
    simp [rotX, Matrix.one_apply, Matrix.vecHead, Matrix.vecTail]

/-- Zero-angle Y rotation is the identity. -/
theorem rotY_zero : rotY 0 = 1 := by
  ext i j
  fin_cases i <;> fin_cases j <;>
    simp [rotY, Matrix.one_apply, Matrix.vecHead, Matrix.vecTail]

/-- Zero-angle Z rotation is the identity. -/
theorem rotZ_zero : rotZ 0 = 1 := by
  ext i j
  fin_cases i <;> fin_cases j <;>
    simp [rotZ, Matrix.one_apply, Matrix.vecHead, Matrix.vecTail]

/-- Zero degrees is zero radians. -/
theorem radians_zero : radians 0 = 0 := by simp [radians]

/-- The zero rotation triple gives the identity matrix. -/
theorem rotXYZ_zero : rotXYZ 0 = 1 := by
  simp [rotXYZ, radians_zero, rotX_zero, rotY_zero, rotZ_zero]

/-- The local transform of an unrotated bone is the pure bind translation. -/
theorem localMat_zero_rot (b : Bone) (h : b.eulerDeg = 0) :
    localMat b = translate b.bindOffset := by
  simp [localMat, h, rotXYZ_zero]

/-- Translation column of a translation matrix. -/
theorem jointPos_of_translate (b : Bone) (v : Vec3) (h : b.global = translate v) :
    jointPos b = v := by
  simp only [jointPos, h, translate]
  ext <;> simp [Matrix.vecHead, Matrix.vecTail]

/-! ## The fixed rig -/

/-- The rig has 16 bones. -/
theorem makeHuman_length : makeHuman.bones.length = 16 := rfl

/-- The rig is a valid hierarchy (root at index 0, parents strictly
before children). -/
theorem makeHuman_validParents : ValidParents makeHuman := by
  intro i hi
  rw [makeHuman_length] at hi
  interval_cases i <;> simp [makeHuman, addBone]

/-! ## C1: forward-kinematics transform composition -/

/-- C1: for every skeleton with valid parent indices, after `updateGlobals`
each bone's world transform is `translate(bindOffset) * Rz * Ry * Rx` of its
local rotation when it is a root, and the parent's (updated) world
transform times that local transform otherwise. -/
theorem fk_world_composition (s : Skeleton) (hv : ValidParents s)
    (i : ℕ) (hi : i < s.bones.length) :
    ((updateGlobals s).bones.getD i default).global =
      if 0 ≤ (s.bones.getD i default).parent then
        ((updateGlobals s).bones.getD (s.bones.getD i default).parent.toNat
            default).global *
          (translate (s.bones.getD i default).bindOffset *
            (rotZ (radians (s.bones.getD i default).eulerDeg.z) *
              rotY (radians (s.bones.getD i default).eulerDeg.y) *
              rotX (radians (s.bones.getD i default).eulerDeg.x)))
      else
        translate (s.bones.getD i default).bindOffset *
          (rotZ (radians (s.bones.getD i default).eulerDeg.z) *
            rotY (radians (s.bones.getD i default).eulerDeg.y) *
            rotX (radians (s.bones.getD i default).eulerDeg.x)) := by
  obtain ⟨b, hbk⟩ : ∃ b, s.bones[i]? = some b :=
    ⟨_, List.getElem?_eq_getElem hi⟩
  have hgetD : s.bones.getD i default = b := by
    rw [List.getD_eq_getElem?_getD, hbk]; rfl
  have hlocal : translate b.bindOffset *
      (rotZ (radians b.eulerDeg.z) * rotY (radians b.eulerDeg.y) *
        rotX (radians b.eulerDeg.x)) = localMat b := by
    rw [localMat, rotXYZ]
  rw [hgetD, updateGlobals_global s hv i hi, worldOf_some s.bones i b hbk, hlocal]
  rcases hv i hi with hroot | ⟨hge, hlt⟩ <;> rw [hgetD] at *
  · rw [if_neg (by rw [hroot]; norm_num), if_neg (by rw [hroot]; norm_num)]
  · have hplt : b.parent.toNat < i := by omega
    rw [if_pos hge, if_pos hge, dif_pos hplt,
      updateGlobals_global s hv b.parent.toNat (lt_trans hplt hi)]

/-- C1 witness: the rig is a valid hierarchy, and the theorem applies to
its spine bone (index 1, a child of the root). -/
theorem fk_world_composition_witness :
    ValidParents makeHuman ∧ 1 < makeHuman.bones.length ∧
      ((updateGlobals makeHuman).bones.getD 1 default).global =
        (if 0 ≤ (makeHuman.bones.getD 1 default).parent then
          ((updateGlobals makeHuman).bones.getD
              (makeHuman.bones.getD 1 default).parent.toNat default).global *
            (translate (makeHuman.bones.getD 1 default).bindOffset *
              (rotZ (radians (makeHuman.bones.getD 1 default).eulerDeg.z) *
                rotY (radians (makeHuman.bones.getD 1 default).eulerDeg.y) *
                rotX (radians (makeHuman.bones.getD 1 default).eulerDeg.x)))
        else
          translate (makeHuman.bones.getD 1 default).bindOffset *
            (rotZ (radians (makeHuman.bones.getD 1 default).eulerDeg.z) *
              rotY (radians (makeHuman.bones.getD 1 default).eulerDeg.y) *
              rotX (radians (makeHuman.bones.getD 1 default).eulerDeg.x))) :=
  ⟨makeHuman_validParents, by rw [makeHuman_length]; norm_num,
    fk_world_composition makeHuman makeHuman_validParents 1
      (by rw [makeHuman_length]; norm_num)⟩

/-! ## C9: the root transform is independent of the other bones -/

/-- An FK iteration for index `i` leaves every other entry unchanged. -/
theorem updateStep_getElem?_ne (bs : List Bone) (i j : ℕ) (h : i ≠ j) :
    (updateStep bs i)[j]? = bs[j]? := by
  unfold updateStep
  cases hbs : bs[i]? with
  | none => rfl
  | some b => exact List.getElem?_set_ne h

/-- A sweep over indices avoiding `j` leaves entry `j` unchanged. -/
theorem foldl_updateStep_getElem?_ne (l : List ℕ) (bs : List Bone) (j : ℕ)
    (h : ∀ i ∈ l, i ≠ j) : (l.foldl updateStep bs)[j]? = bs[j]? := by
  induction l generalizing bs with
  | nil => rfl
  | cons i is ih =>
    rw [List.foldl_cons, ih _ fun a ha => h a (List.mem_cons_of_mem i ha),
      updateStep_getElem?_ne bs i j (h i (List.mem_cons_self i is))]

/-- With no validity assumption on the rest of the hierarchy, the root
bone's world transform after `updateGlobals` is its own local transform. -/
theorem updateGlobals_root (s : Skeleton) (h0 : 0 < s.bones.length)
    (hroot : (s.bones.getD 0 default).parent = -1) :
    ((updateGlobals s).bones.getD 0 default).global =
      localMat (s.bones.getD 0 default) := by
  obtain ⟨b, hb⟩ : ∃ b, s.bones[0]? = some b :=
    ⟨_, List.getElem?_eq_getElem h0⟩
  have hgetD : s.bones.getD 0 default = b := by
    rw [List.getD_eq_getElem?_getD, hb]; rfl
  rw [hgetD] at hroot ⊢
  obtain ⟨m, hm⟩ : ∃ m, s.bones.length = m + 1 :=
    ⟨s.bones.length - 1, by omega⟩
  have hstep0 : updateStep s.bones 0 =
      s.bones.set 0 { b with global :=
        (if 0 ≤ b.parent
          then (s.bones.getD b.parent.toNat default).global * localMat b
          else localMat b) } := by
    unfold updateStep
    rw [hb]
  rw [if_neg (by rw [hroot]; norm_num)] at hstep0
  have : (updateGlobals s).bones[0]? = some { b with global := localMat b } := by
    show ((List.range s.bones.length).foldl updateStep s.bones)[0]? = _
    rw [hm, List.range_succ_eq_map, List.foldl_cons,
      foldl_updateStep_getElem?_ne _ _ 0 (by simp), hstep0,
      List.getElem?_set_self (by omega)]
  rw [List.getD_eq_getElem?_getD, this]
  rfl

/-- C9: two skeletons which agree on the root bone's parent flag, bind
offset and local rotation — whatever all the other bones hold — get the
same root world transform from FK evaluation. -/
theorem root_world_independent (s1 s2 : Skeleton)
    (h1 : 0 < s1.bones.length) (h2 : 0 < s2.bones.length)
    (hr1 : (s1.bones.getD 0 default).parent = -1)
    (hr2 : (s2.bones.getD 0 default).parent = -1)
    (hoff : (s1.bones.getD 0 default).bindOffset =
      (s2.bones.getD 0 default).bindOffset)
    (hrot : (s1.bones.getD 0 default).eulerDeg =
      (s2.bones.getD 0 default).eulerDeg) :
    ((updateGlobals s1).bones.getD 0 default).global =
      ((updateGlobals s2).bones.getD 0 default).global := by
  rw [updateGlobals_root s1 h1 hr1, updateGlobals_root s2 h2 hr2,
    localMat, localMat, hoff, hrot]

/-- C9 witness: a one-bone skeleton against a two-bone skeleton with the
same root data but a rotated second bone. -/
theorem root_world_independent_witness :
    (0 < (Skeleton.mk [⟨-1, ⟨1, 2, 3⟩, ⟨4, 5, 6⟩, 1, 1⟩]).bones.length) ∧
    ((updateGlobals (Skeleton.mk [⟨-1, ⟨1, 2, 3⟩, ⟨4, 5, 6⟩, 1, 1⟩])).bones.getD
        0 default).global =
      ((updateGlobals (Skeleton.mk [⟨-1, ⟨1, 2, 3⟩, ⟨4, 5, 6⟩, 1, 1⟩,
          ⟨0, ⟨7, 7, 7⟩, ⟨30, 60, 90⟩, 2, 1⟩])).bones.getD 0 default).global :=
  ⟨by norm_num,
    root_world_independent _ _ (by norm_num) (by norm_num) rfl rfl rfl rfl⟩

/-! ## C5: zero rotations give a pure translation chain -/

/-- The accumulated bind-offset sum along the ancestor chain of bone `i`
(the root's own offset included). -/
def chainSum (bs : List Bone) (i : ℕ) : Vec3 :=
  match bs[i]? with
  | none => 0
  | some b =>
    if 0 ≤ b.parent then
      (if h : b.parent.toNat < i then chainSum bs b.parent.toNat else 0) +
        b.bindOffset
    else b.bindOffset
termination_by i
decreasing_by exact h

/-- Unfolding equation for `chainSum` at an in-range index. -/
theorem chainSum_some (bs : List Bone) (i : ℕ) (b : Bone) (hb : bs[i]? = some b) :
    chainSum bs i =
      if 0 ≤ b.parent then
        (if h : b.parent.toNat < i then chainSum bs b.parent.toNat else 0) +
          b.bindOffset
      else b.bindOffset := by
  rw [chainSum, hb]

/-- With all rotations zero, the FK world transform of each bone is the
translation by its ancestor-chain offset sum. -/
theorem worldOf_zero_rot (s : Skeleton) (hv : ValidParents s)
    (hz : ∀ i, i < s.bones.length → (s.bones.getD i default).eulerDeg = 0) :
    ∀ i, i < s.bones.length → worldOf s.bones i = translate (chainSum s.bones i) := by
  intro i
  induction i using Nat.strong_induction_on with
  | _ i ih =>
    intro hi
    obtain ⟨b, hb⟩ : ∃ b, s.bones[i]? = some b :=
      ⟨_, List.getElem?_eq_getElem hi⟩
    have hgetD : s.bones.getD i default = b := by
      rw [List.getD_eq_getElem?_getD, hb]; rfl
    have hloc : localMat b = translate b.bindOffset :=
      localMat_zero_rot b (by rw [← hgetD]; exact hz i hi)
    rw [worldOf_some s.bones i b hb, chainSum_some s.bones i b hb]
    rcases hv i hi with hroot | ⟨hge, hlt⟩ <;> rw [hgetD] at *
    · rw [if_neg (by rw [hroot]; norm_num), if_neg (by rw [hroot]; norm_num), hloc]
    · have hplt : b.parent.toNat < i := by omega
      rw [if_pos hge, if_pos hge, dif_pos hplt, dif_pos hplt, hloc,
        ih b.parent.toNat hplt (lt_trans hplt hi), translate_mul_translate]

/-- C5: in a valid skeleton whose rotations are all zero, each bone's world
position after FK evaluation is the sum of the `bindOffset` vectors along
its ancestor chain. -/
theorem fk_zero_rotation_positions (s : Skeleton) (hv : ValidParents s)
    (hz : ∀ i, i < s.bones.length → (s.bones.getD i default).eulerDeg = 0)
    (i : ℕ) (hi : i < s.bones.length) :
    jointPos ((updateGlobals s).bones.getD i default) = chainSum s.bones i := by
  obtain ⟨b, hb⟩ : ∃ b, s.bones[i]? = some b :=
    ⟨_, List.getElem?_eq_getElem hi⟩
  have : (updateGlobals s).bones.getD i default =
      { b with global := worldOf s.bones i } := by
    rw [List.getD_eq_getElem?_getD, updateGlobals_getElem? s hv i hi, hb]
    rfl
  rw [this]
  exact jointPos_of_translate _ _ (worldOf_zero_rot s hv hz i hi)

/-- The rig's bind pose has all rotations zero. -/
theorem makeHuman_zero_rot :
    ∀ i, i < makeHuman.bones.length → (makeHuman.bones.getD i default).eulerDeg = 0 := by
  intro i hi
  rw [makeHuman_length] at hi
  interval_cases i <;> rfl

/-- C5 witness: the neck joint (bone 2) of the bind-pose rig sits at the
sum of the offsets of root, spine and neck. -/
theorem fk_zero_rotation_positions_witness :
    ValidParents makeHuman ∧ 2 < makeHuman.bones.length ∧
      jointPos ((updateGlobals makeHuman).bones.getD 2 default) =
        chainSum makeHuman.bones 2 :=
  ⟨makeHuman_validParents, by rw [makeHuman_length]; norm_num,
    fk_zero_rotation_positions makeHuman makeHuman_validParents
      makeHuman_zero_rot 2 (by rw [makeHuman_length]; norm_num)⟩

/-! ## Animator machinery -/

/-- An in-range `setR` succeeds and sets exactly one rotation. -/
theorem setR_spec (s : Skeleton) (idx : ℕ) (r : Vec3) (h : idx < s.bones.length) :
    ∃ s', setR s idx r = some s' ∧ s'.bones.length = s.bones.length ∧
      rotationsOf s' = (rotationsOf s).set idx r := by
  refine ⟨_, if_pos h, by simp, ?_⟩
  show (s.bones.set idx _).map Bone.eulerDeg = (s.bones.map Bone.eulerDeg).set idx r
  rw [List.map_set]

/-- A successful `setR` was in range and set exactly one rotation. -/
theorem setR_eq_some (s : Skeleton) (idx : ℕ) (r : Vec3) (s' : Skeleton)
    (h : setR s idx r = some s') :
    idx < s.bones.length ∧ s'.bones.length = s.bones.length ∧
      rotationsOf s' = (rotationsOf s).set idx r := by
  unfold setR at h
  by_cases hlt : idx < s.bones.length
  · rw [if_pos hlt] at h
    injection h with h
    subst h
    refine ⟨hlt, by simp, ?_⟩
    show (s.bones.set idx _).map Bone.eulerDeg = (s.bones.map Bone.eulerDeg).set idx r
    rw [List.map_set]
  · rw [if_neg hlt] at h
    cases h

/-- `updateGlobals` does not change the rotation set. -/
theorem rotationsOf_updateGlobals (s : Skeleton) :
    rotationsOf (updateGlobals s) = rotationsOf s :=
  updateGlobals_map Bone.eulerDeg (fun _ _ => rfl) s

/-- Successful arm writes: the resulting rotation set and its size. -/
theorem walkArms_spec (s : Skeleton) (phase : ℝ) (h : 15 < s.bones.length) :
    ∃ s', walkArms s phase = some s' ∧
      s'.bones.length = s.bones.length ∧
      rotationsOf s' =
        ((((((rotationsOf s).set 10 ⟨35 * Real.sin (phase + Real.pi), 0, 0⟩).set
          11 ⟨-(10 * max 0 (Real.sin (phase + Real.pi))), 0, 0⟩).set
          12 ⟨5 * Real.sin (phase + 1.0), 0, 0⟩).set
          13 ⟨-(35 * Real.sin (phase + Real.pi)), 0, 0⟩).set
          14 ⟨-(10 * max 0 (Real.sin phase)), 0, 0⟩).set
          15 ⟨5 * Real.sin (phase + Real.pi + 1.0), 0, 0⟩ := by
  obtain ⟨s10, e10, l10, r10⟩ := setR_spec s 10
    ⟨35 * Real.sin (phase + Real.pi), 0, 0⟩ (by omega)
  obtain ⟨s11, e11, l11, r11⟩ := setR_spec s10 11
    ⟨-(10 * max 0 (Real.sin (phase + Real.pi))), 0, 0⟩ (by omega)
  obtain ⟨s12, e12, l12, r12⟩ := setR_spec s11 12
    ⟨5 * Real.sin (phase + 1.0), 0, 0⟩ (by omega)
  obtain ⟨s13, e13, l13, r13⟩ := setR_spec s12 13
    ⟨-(35 * Real.sin (phase + Real.pi)), 0, 0⟩ (by omega)
  obtain ⟨s14, e14, l14, r14⟩ := setR_spec s13 14
    ⟨-(10 * max 0 (Real.sin phase)), 0, 0⟩ (by omega)
  obtain ⟨s15, e15, l15, r15⟩ := setR_spec s14 15
    ⟨5 * Real.sin (phase + Real.pi + 1.0), 0, 0⟩ (by omega)
  refine ⟨updateGlobals s15, ?_, ?_, ?_⟩
  · unfold walkArms
    dsimp only
    rw [e10, Option.some_bind, e11, Option.some_bind, e12, Option.some_bind,
      e13, Option.some_bind, e14, Option.some_bind, e15, Option.some_bind]
  · rw [updateGlobals_length]
    omega
  · rw [rotationsOf_updateGlobals, r15, r14, r13, r12, r11, r10]

/-- A successful arm-write chain implies at least 16 bones. -/
theorem walkArms_eq_some (s : Skeleton) (phase : ℝ) (s' : Skeleton)
    (h : walkArms s phase = some s') : 15 < s.bones.length := by
  unfold walkArms at h
  simp only [Option.bind_eq_some] at h
  obtain ⟨s10, e10, s11, e11, s12, e12, s13, e13, s14, e14, s15, e15, _⟩ := h
  have h10 := setR_eq_some _ _ _ _ e10
  have h11 := setR_eq_some _ _ _ _ e11
  have h12 := setR_eq_some _ _ _ _ e12
  have h13 := setR_eq_some _ _ _ _ e13
  have h14 := setR_eq_some _ _ _ _ e14
  have h15 := setR_eq_some _ _ _ _ e15
  omega

/-- Successful leg+arm writes: the resulting rotation set and its size. -/
theorem walkLegs_spec (s : Skeleton) (phase : ℝ) (h : 15 < s.bones.length) :
    ∃ s', walkLegs s phase = some s' ∧
      s'.bones.length = s.bones.length ∧
      rotationsOf s' =
        ((((((((((((rotationsOf s).set 4 ⟨30 * Real.sin phase, 0, 0⟩).set
          5 ⟨-(25 * max 0 (Real.sin phase)), 0, 0⟩).set
          6 ⟨5 * Real.sin (phase + 0.4), 0, 0⟩).set
          7 ⟨-(30 * Real.sin phase), 0, 0⟩).set
          8 ⟨-(25 * max 0 (Real.sin (phase + Real.pi))), 0, 0⟩).set
          9 ⟨5 * Real.sin (phase + Real.pi + 0.4), 0, 0⟩).set
          10 ⟨35 * Real.sin (phase + Real.pi), 0, 0⟩).set
          11 ⟨-(10 * max 0 (Real.sin (phase + Real.pi))), 0, 0⟩).set
          12 ⟨5 * Real.sin (phase + 1.0), 0, 0⟩).set
          13 ⟨-(35 * Real.sin (phase + Real.pi)), 0, 0⟩).set
          14 ⟨-(10 * max 0 (Real.sin phase)), 0, 0⟩).set
          15 ⟨5 * Real.sin (phase + Real.pi + 1.0), 0, 0⟩ := by
  obtain ⟨s4, e4, l4, r4⟩ := setR_spec s 4 ⟨30 * Real.sin phase, 0, 0⟩ (by omega)
  obtain ⟨s5, e5, l5, r5⟩ := setR_spec s4 5
    ⟨-(25 * max 0 (Real.sin phase)), 0, 0⟩ (by omega)
  obtain ⟨s6, e6, l6, r6⟩ := setR_spec s5 6
    ⟨5 * Real.sin (phase + 0.4), 0, 0⟩ (by omega)
  obtain ⟨s7, e7, l7, r7⟩ := setR_spec s6 7
    ⟨-(30 * Real.sin phase), 0, 0⟩ (by omega)
  obtain ⟨s8, e8, l8, r8⟩ := setR_spec s7 8
    ⟨-(25 * max 0 (Real.sin (phase + Real.pi))), 0, 0⟩ (by omega)
  obtain ⟨s9, e9, l9, r9⟩ := setR_spec s8 9
    ⟨5 * Real.sin (phase + Real.pi + 0.4), 0, 0⟩ (by omega)
  obtain ⟨s', e', l', r'⟩ := walkArms_spec s9 phase (by omega)
  refine ⟨s', ?_, by omega, ?_⟩
  · unfold walkLegs
    dsimp only
    rw [e4, Option.some_bind, e5, Option.some_bind, e6, Option.some_bind,
      e7, Option.some_bind, e8, Option.some_bind, e9, Option.some_bind, e']
  · rw [r', r9, r8, r7, r6, r5, r4]

/-- A successful leg-write chain implies at least 16 bones. -/
theorem walkLegs_eq_some (s : Skeleton) (phase : ℝ) (s' : Skeleton)
    (h : walkLegs s phase = some s') : 15 < s.bones.length := by
  unfold walkLegs at h
  simp only [Option.bind_eq_some] at h
  obtain ⟨s4, e4, s5, e5, s6, e6, s7, e7, s8, e8, s9, e9, harm⟩ := h
  have h4 := setR_eq_some _ _ _ _ e4
  have h5 := setR_eq_some _ _ _ _ e5
  have h6 := setR_eq_some _ _ _ _ e6
  have h7 := setR_eq_some _ _ _ _ e7
  have h8 := setR_eq_some _ _ _ _ e8
  have h9 := setR_eq_some _ _ _ _ e9
  have harm' := walkArms_eq_some _ _ _ harm
  omega

/-- Successful full animator run: the resulting rotation set and size. -/
theorem animateWalk_spec (s : Skeleton) (t : ℝ) (h : 15 < s.bones.length) :
    ∃ s', animateWalk s t = some s' ∧
      s'.bones.length = s.bones.length ∧
      rotationsOf s' =
        ((((((((((((((((rotationsOf s).set 0
          ⟨0, 0, 3 * Real.sin (walkPhase t * 0.5)⟩).set
          1 ⟨5 * Real.sin (walkPhase t * 0.5), 0, 0⟩).set
          2 ⟨-3 * Real.sin (walkPhase t * 0.5), 0, 0⟩).set
          3 ⟨2 * Real.sin (walkPhase t * 0.5), 0, 0⟩).set
          4 ⟨30 * Real.sin (walkPhase t), 0, 0⟩).set
          5 ⟨-(25 * max 0 (Real.sin (walkPhase t))), 0, 0⟩).set
          6 ⟨5 * Real.sin (walkPhase t + 0.4), 0, 0⟩).set
          7 ⟨-(30 * Real.sin (walkPhase t)), 0, 0⟩).set
          8 ⟨-(25 * max 0 (Real.sin (walkPhase t + Real.pi))), 0, 0⟩).set
          9 ⟨5 * Real.sin (walkPhase t + Real.pi + 0.4), 0, 0⟩).set
          10 ⟨35 * Real.sin (walkPhase t + Real.pi), 0, 0⟩).set
          11 ⟨-(10 * max 0 (Real.sin (walkPhase t + Real.pi))), 0, 0⟩).set
          12 ⟨5 * Real.sin (walkPhase t + 1.0), 0, 0⟩).set
          13 ⟨-(35 * Real.sin (walkPhase t + Real.pi)), 0, 0⟩).set
          14 ⟨-(10 * max 0 (Real.sin (walkPhase t))), 0, 0⟩).set
          15 ⟨5 * Real.sin (walkPhase t + Real.pi + 1.0), 0, 0⟩ := by
  obtain ⟨s0, e0, l0, r0⟩ := setR_spec s 0
    ⟨0, 0, 3 * Real.sin (walkPhase t * 0.5)⟩ (by omega)
  obtain ⟨s1, e1, l1, r1⟩ := setR_spec s0 1
    ⟨5 * Real.sin (walkPhase t * 0.5), 0, 0⟩ (by omega)
  obtain ⟨s2, e2, l2, r2⟩ := setR_spec s1 2
    ⟨-3 * Real.sin (walkPhase t * 0.5), 0, 0⟩ (by omega)
  obtain ⟨s3, e3, l3, r3⟩ := setR_spec s2 3
    ⟨2 * Real.sin (walkPhase t * 0.5), 0, 0⟩ (by omega)
  obtain ⟨s', e', l', r'⟩ := walkLegs_spec s3 (walkPhase t) (by omega)
  refine ⟨s', ?_, by omega, ?_⟩
  · unfold animateWalk
    dsimp only
    rw [e0, Option.some_bind, e1, Option.some_bind, e2, Option.some_bind,
      e3, Option.some_bind, e']
  · rw [r', r3, r2, r1, r0]

/-- A successful animator run implies at least 16 bones. -/
theorem animateWalk_eq_some (s : Skeleton) (t : ℝ) (s' : Skeleton)
    (h : animateWalk s t = some s') : 15 < s.bones.length := by
  unfold animateWalk at h
  simp only [Option.bind_eq_some] at h
  obtain ⟨s0, e0, s1, e1, s2, e2, s3, e3, hleg⟩ := h
  have h0 := setR_eq_some _ _ _ _ e0
  have h1 := setR_eq_some _ _ _ _ e1
  have h2 := setR_eq_some _ _ _ _ e2
  have h3 := setR_eq_some _ _ _ _ e3
  have hleg' := walkLegs_eq_some _ _ _ hleg
  omega

/-! ## C10: the animator's indexing is in range exactly for 16+ bones -/

/-- C10: the animator writes bones 0..15 with no bounds guard: every run on
a skeleton with at least 16 bones keeps all accesses in range (the modelled
out-of-bounds failure is unreachable), and at least 16 bones is also
necessary — on smaller skeletons some indexed write is out of range. -/
theorem animateWalk_inbounds_iff (s : Skeleton) (t : ℝ) :
    (animateWalk s t).isSome ↔ 16 ≤ s.bones.length := by
  constructor
  · intro h
    obtain ⟨s', hs'⟩ := Option.isSome_iff_exists.mp h
    have := animateWalk_eq_some s t s' hs'
    omega
  · intro h
    obtain ⟨s', hs', -, -⟩ := animateWalk_spec s t (by omega)
    rw [hs']
    rfl

/-! ## C6: half-wave-rectified knee flexion -/

/-- C6: on any 16+-bone skeleton, the animator writes knee flexion
rotations that are never positively signed beyond zero: each knee's
x-rotation is `≤ 0`, and is exactly `0` whenever its driving sine
(`sin(phase)` for the left knee, `sin(phase + π)` for the right) is not
positive. -/
theorem knee_halfwave_rectified (s : Skeleton) (t : ℝ)
    (h : 16 ≤ s.bones.length) :
    ∃ s', animateWalk s t = some s' ∧
      ((s'.bones.getD 5 default).eulerDeg.x ≤ 0 ∧
        (Real.sin (walkPhase t) ≤ 0 → (s'.bones.getD 5 default).eulerDeg.x = 0)) ∧
      ((s'.bones.getD 8 default).eulerDeg.x ≤ 0 ∧
        (Real.sin (walkPhase t + Real.pi) ≤ 0 →
          (s'.bones.getD 8 default).eulerDeg.x = 0)) := by
  obtain ⟨s', hs', hlen, hrot⟩ := animateWalk_spec s t (by omega)
  have hrlen : (rotationsOf s).length = s.bones.length := List.length_map _ _
  have hget : ∀ j, j < s.bones.length →
      (s'.bones.getD j default).eulerDeg = (rotationsOf s').getD j 0 := by
    intro j hj
    have hj' : j < s'.bones.length := by omega
    rw [List.getD_eq_getElem?_getD, List.getD_eq_getElem?_getD]
    show _ = ((s'.bones.map Bone.eulerDeg)[j]?).getD 0
    rw [List.getElem?_map, List.getElem?_eq_getElem hj']
    rfl
  have hv5 : (rotationsOf s').getD 5 0 =
      ⟨-(25 * max 0 (Real.sin (walkPhase t))), 0, 0⟩ := by
    rw [List.getD_eq_getElem?_getD, hrot]
    rw [List.getElem?_set_ne (by norm_num), List.getElem?_set_ne (by norm_num),
      List.getElem?_set_ne (by norm_num), List.getElem?_set_ne (by norm_num),
      List.getElem?_set_ne (by norm_num), List.getElem?_set_ne (by norm_num),
      List.getElem?_set_ne (by norm_num), List.getElem?_set_ne (by norm_num),
      List.getElem?_set_ne (by norm_num), List.getElem?_set_ne (by norm_num),
      List.getElem?_set_self (by simp only [List.length_set, hrlen]; omega)]
    rfl
  have hv8 : (rotationsOf s').getD 8 0 =
      ⟨-(25 * max 0 (Real.sin (walkPhase t + Real.pi))), 0, 0⟩ := by
    rw [List.getD_eq_getElem?_getD, hrot]
    rw [List.getElem?_set_ne (by norm_num), List.getElem?_set_ne (by norm_num),
      List.getElem?_set_ne (by norm_num), List.getElem?_set_ne (by norm_num),
      List.getElem?_set_ne (by norm_num), List.getElem?_set_ne (by norm_num),
      List.getElem?_set_ne (by norm_num),
      List.getElem?_set_self (by simp only [List.length_set, hrlen]; omega)]
    rfl
  have hmax : ∀ a : ℝ, -(25 * max 0 a) ≤ 0 := fun a => by
    have := le_max_left 0 a
    nlinarith
  have hmax0 : ∀ a : ℝ, a ≤ 0 → -(25 * max 0 a) = 0 := fun a ha => by
    rw [max_eq_left ha]
    ring
  refine ⟨s', hs', ⟨?_, fun hsin => ?_⟩, ⟨?_, fun hsin => ?_⟩⟩
  · rw [hget 5 (by omega), hv5]; exact hmax _
  · rw [hget 5 (by omega), hv5]; exact hmax0 _ hsin
  · rw [hget 8 (by omega), hv8]; exact hmax _
  · rw [hget 8 (by omega), hv8]; exact hmax0 _ hsin

/-- C6 witness: the rig at `t = 0`. -/
theorem knee_halfwave_rectified_witness :
    16 ≤ makeHuman.bones.length ∧
    (∃ s', animateWalk makeHuman 0 = some s' ∧
      ((s'.bones.getD 5 default).eulerDeg.x ≤ 0 ∧
        (Real.sin (walkPhase 0) ≤ 0 → (s'.bones.getD 5 default).eulerDeg.x = 0)) ∧
      ((s'.bones.getD 8 default).eulerDeg.x ≤ 0 ∧
        (Real.sin (walkPhase 0 + Real.pi) ≤ 0 →
          (s'.bones.getD 8 default).eulerDeg.x = 0))) :=
  ⟨by rw [makeHuman_length],
    knee_halfwave_rectified makeHuman 0 (by rw [makeHuman_length])⟩

/-! ## C2: addBone performs no hierarchy validation -/

/-- C2 counterexample: `addBone` constructs a bone whose parent index
equals its own index (0) — a malformed self/forward reference — without
any failure: the skeleton is built (one bone, parent 0 recorded) and FK
evaluation then runs on it just fine.  There is no `InvalidHierarchy`
error anywhere in the source. -/
theorem addBone_accepts_malformed :
    ((addBone ⟨[]⟩ 0 ⟨0, 0, 0⟩ 1).1.bones.length = 1) ∧
    (((addBone ⟨[]⟩ 0 ⟨0, 0, 0⟩ 1).1.bones.getD 0 default).parent = 0) ∧
    ((updateGlobals (addBone ⟨[]⟩ 0 ⟨0, 0, 0⟩ 1).1).bones.length = 1) := by
  refine ⟨rfl, rfl, ?_⟩
  rw [updateGlobals_length]
  rfl

/-- C2 amended: skeleton construction never fails: for every parent index
(malformed ones — self-references, forward references, out-of-range values
— included) `addBone` simply appends the bone and returns its index; no
validation is performed, and nothing stops such a skeleton from reaching
FK evaluation. -/
theorem addBone_unvalidated (s : Skeleton) (parent : ℤ) (off : Vec3) (len : ℝ) :
    (addBone s parent off len).1.bones = s.bones ++ [⟨parent, off, 0, len, 1⟩] ∧
    (addBone s parent off len).2 = (s.bones.length : ℤ) :=
  ⟨rfl, rfl⟩

/-! ## C8: the head generator's size guard is at 3, not 16 -/

/-- C8 counterexample: a 4-bone skeleton (fewer than the rig's 16) does NOT
get an empty triangle list — the guard in the source is `size <= 3`, so any
skeleton containing slot 3 produces sphere geometry. -/
theorem headTris_undersized_nonempty :
    (Skeleton.mk (makeHuman.bones.take 4)).bones.length < 16 ∧
    buildHeadSphereTris (Skeleton.mk (makeHuman.bones.take 4)) 16 24 ≠ [] := by
  have hlen : (Skeleton.mk (makeHuman.bones.take 4)).bones.length = 4 := by
    show (makeHuman.bones.take 4).length = 4
    rw [List.length_take, makeHuman_length]
    norm_num
  refine ⟨by omega, ?_⟩
  unfold buildHeadSphereTris
  rw [if_neg (by omega)]
  intro hc
  rw [List.flatMap_eq_nil_iff] at hc
  have h1 := hc 0 (List.mem_range.mpr (by norm_num))
  rw [List.flatMap_eq_nil_iff] at h1
  have h2 := h1 0 (List.mem_range.mpr (by norm_num))
  simp at h2

/-- C8 amended: `buildHeadSphereTris` returns the empty list exactly when
the skeleton is too small to contain the head slot (index 3), i.e. when it
has at most 3 bones; it never fails on undersized arrays, and skeletons
with 4 or more bones (even below the rig's 16) produce sphere geometry. -/
theorem headTris_empty_iff (s : Skeleton) (nStacks nSlices : ℕ)
    (hst : 1 ≤ nStacks) (hsl : 1 ≤ nSlices) :
    (buildHeadSphereTris s nStacks nSlices = [] ↔ s.bones.length ≤ 3) := by
  unfold buildHeadSphereTris
  by_cases h : s.bones.length ≤ 3
  · rw [if_pos h]
    simp [h]
  · rw [if_neg h]
    simp only [h, iff_false]
    intro hc
    rw [List.flatMap_eq_nil_iff] at hc
    have h1 := hc 0 (List.mem_range.mpr (by omega))
    rw [List.flatMap_eq_nil_iff] at h1
    have h2 := h1 0 (List.mem_range.mpr (by omega))
    simp at h2

/-- C8 amended witness: the empty skeleton at the smallest admissible
tessellation. -/
theorem headTris_empty_iff_witness :
    (1 ≤ 1 ∧ 1 ≤ 1) ∧
    (buildHeadSphereTris ⟨[]⟩ 1 1 = [] ↔ (Skeleton.mk []).bones.length ≤ 3) :=
  ⟨⟨le_rfl, le_rfl⟩, headTris_empty_iff ⟨[]⟩ 1 1 le_rfl le_rfl⟩

/-! ## C3: line vertex count of the rig -/

/-- Flat-mapping constant-length blocks multiplies the length. -/
theorem length_flatMap_const {α β : Type} (l : List α) (f : α → List β) (n : ℕ)
    (h : ∀ a, (f a).length = n) : (l.flatMap f).length = l.length * n := by
  induction l with
  | nil => simp
  | cons a as ih =>
    rw [List.flatMap_cons, List.length_append, ih, h, List.length_cons]
    ring

/-- Core count: for any skeleton whose per-bone lengths are those of the
rig (any pose, any offsets), `buildSkeletonLines` emits 2 vertices for each
of the 14 rendered bones (the zero-length root and the head are skipped —
only 2 distinct bones are excluded, since the root is both index 0 and the
only zero-length bone) plus 164 grid vertices: 192 in total. -/
theorem lines_length_core (s : Skeleton)
    (hlen : s.bones.map Bone.length = makeHuman.bones.map Bone.length) :
    (buildSkeletonLines (updateGlobals s)).length = 192 := by
  set s' := updateGlobals s with hs'
  have hmapeq : s'.bones.map Bone.length = makeHuman.bones.map Bone.length := by
    rw [hs', updateGlobals_map Bone.length (fun _ _ => rfl)]
    exact hlen
  have hlen16 : s'.bones.length = 16 := by
    have h1 := congrArg List.length hmapeq
    rw [List.length_map, List.length_map, makeHuman_length] at h1
    exact h1
  have hget : ∀ i, i < 16 →
      (s'.bones.getD i default).length = (makeHuman.bones.getD i default).length := by
    intro i hi
    have h1 := congrArg (fun l => l[i]?) hmapeq
    simp only [List.getElem?_map] at h1
    rw [List.getElem?_eq_getElem (show i < s'.bones.length by omega),
      List.getElem?_eq_getElem (show i < makeHuman.bones.length by
        rw [makeHuman_length]; omega)] at h1
    simp only [Option.map_some] at h1
    rw [List.getD_eq_getElem?_getD, List.getD_eq_getElem?_getD,
      List.getElem?_eq_getElem (show i < s'.bones.length by omega),
      List.getElem?_eq_getElem (show i < makeHuman.bones.length by
        rw [makeHuman_length]; omega)]
    exact Option.some_injective _ h1
  have h0 : (s'.bones.getD 0 default).length = 0.0 := by
    rw [hget 0 (by norm_num)]; rfl
  have h1 : (s'.bones.getD 1 default).length = 0.4 := by
    rw [hget 1 (by norm_num)]; rfl
  have h2 : (s'.bones.getD 2 default).length = 0.1 := by
    rw [hget 2 (by norm_num)]; rfl
  have h3 : (s'.bones.getD 3 default).length = 0.22 := by
    rw [hget 3 (by norm_num)]; rfl
  have h4 : (s'.bones.getD 4 default).length = 0.45 := by
    rw [hget 4 (by norm_num)]; rfl
  have h5 : (s'.bones.getD 5 default).length = 0.45 := by
    rw [hget 5 (by norm_num)]; rfl
  have h6 : (s'.bones.getD 6 default).length = 0.18 := by
    rw [hget 6 (by norm_num)]; rfl
  have h7 : (s'.bones.getD 7 default).length = 0.45 := by
    rw [hget 7 (by norm_num)]; rfl
  have h8 : (s'.bones.getD 8 default).length = 0.45 := by
    rw [hget 8 (by norm_num)]; rfl
  have h9 : (s'.bones.getD 9 default).length = 0.18 := by
    rw [hget 9 (by norm_num)]; rfl
  have h10 : (s'.bones.getD 10 default).length = 0.30 := by
    rw [hget 10 (by norm_num)]; rfl
  have h11 : (s'.bones.getD 11 default).length = 0.30 := by
    rw [hget 11 (by norm_num)]; rfl
  have h12 : (s'.bones.getD 12 default).length = 0.12 := by
    rw [hget 12 (by norm_num)]; rfl
  have h13 : (s'.bones.getD 13 default).length = 0.30 := by
    rw [hget 13 (by norm_num)]; rfl
  have h14 : (s'.bones.getD 14 default).length = 0.30 := by
    rw [hget 14 (by norm_num)]; rfl
  have h15 : (s'.bones.getD 15 default).length = 0.12 := by
    rw [hget 15 (by norm_num)]; rfl
  have hrange : List.range 16 = [0,1,2,3,4,5,6,7,8,9,10,11,12,13,14,15] := by
    decide
  simp only [List.getD_eq_getElem?_getD] at h0 h1 h2 h3 h4 h5 h6 h7
  simp only [List.getD_eq_getElem?_getD] at h8 h9 h10 h11 h12 h13 h14 h15
  have hgrid : ((List.range 41).flatMap gridLines).length = 164 :=
    (length_flatMap_const (List.range 41) gridLines 4 (fun k => rfl)).trans
      (by simp)
  unfold buildSkeletonLines
  rw [List.length_append, hlen16, hrange, hgrid]
  simp only [List.flatMap_cons, List.flatMap_nil, List.append_nil]
  norm_num [h0, h1, h2, h3, h4, h5, h6, h7, h8, h9, h10, h11, h12, h13, h14, h15]

/-- C3 counterexample: the bind-pose rig's line stream has 192 vertices,
not the 190 the claim states — only 2 bones are excluded (the root, which
is also the only zero-length bone, and the head), so the count is
`2*(14 + 82) = 192`. -/
theorem lines_bindpose_count_ne_190 :
    (buildSkeletonLines (updateGlobals makeHuman)).length = 192 ∧
    (buildSkeletonLines (updateGlobals makeHuman)).length ≠ 190 := by
  have h := lines_length_core makeHuman rfl
  exact ⟨h, by rw [h]; norm_num⟩

/-- C3 amended: for the 16-bone rig in any pose, `buildSkeletonLines`
excludes exactly 2 bones (the root — index 0 and the only zero-length bone
— and the head, index 3) and appends the `2*(2*20+1) = 82`-segment ground
grid, for `2*(14 + 82) = 192` line vertices. -/
theorem skeleton_lines_vertex_count (s : Skeleton)
    (hlen : s.bones.map Bone.length = makeHuman.bones.map Bone.length) :
    (buildSkeletonLines (updateGlobals s)).length = 192 :=
  lines_length_core s hlen

/-- C3 amended witness: the rig itself. -/
theorem skeleton_lines_vertex_count_witness :
    (makeHuman.bones.map Bone.length = makeHuman.bones.map Bone.length) ∧
    (buildSkeletonLines (updateGlobals makeHuman)).length = 192 :=
  ⟨rfl, skeleton_lines_vertex_count makeHuman rfl⟩

/-! ## C4: periodicity of the walk cycle -/

/-- On a skeleton with fewer than 16 bones the animator fails. -/
theorem animateWalk_none (s : Skeleton) (t : ℝ) (h : s.bones.length < 16) :
    animateWalk s t = none := by
  cases ha : animateWalk s t with
  | none => rfl
  | some s' => exact absurd (animateWalk_eq_some s t s' ha) (by omega)

/-- C4 counterexample: one step period (`1/stepsPerSecond`) is NOT a period
of the rotation set: at `t = 5/16` the root's half-frequency z-sway is
`+3` degrees but at `t + 1/1.6` it is `-3` degrees. -/
theorem walk_rotations_not_one_step_periodic :
    (animateWalk makeHuman (5/16)).map rotationsOf ≠
      (animateWalk makeHuman (5/16 + 1/1.6)).map rotationsOf := by
  obtain ⟨sA, eA, -, rA⟩ := animateWalk_spec makeHuman (5/16)
    (by rw [makeHuman_length]; omega)
  obtain ⟨sB, eB, -, rB⟩ := animateWalk_spec makeHuman (5/16 + 1/1.6)
    (by rw [makeHuman_length]; omega)
  have hrlen : (rotationsOf makeHuman).length = 16 := by
    rw [rotationsOf, List.length_map, makeHuman_length]
  intro hEq
  rw [eA, eB] at hEq
  have hEq' : rotationsOf sA = rotationsOf sB := Option.some.inj hEq
  have hA : (rotationsOf sA)[0]? =
      some ⟨0, 0, 3 * Real.sin (walkPhase (5/16) * 0.5)⟩ := by
    rw [rA]
    rw [List.getElem?_set_ne (by norm_num), List.getElem?_set_ne (by norm_num),
      List.getElem?_set_ne (by norm_num), List.getElem?_set_ne (by norm_num),
      List.getElem?_set_ne (by norm_num), List.getElem?_set_ne (by norm_num),
      List.getElem?_set_ne (by norm_num), List.getElem?_set_ne (by norm_num),
      List.getElem?_set_ne (by norm_num), List.getElem?_set_ne (by norm_num),
      List.getElem?_set_ne (by norm_num), List.getElem?_set_ne (by norm_num),
      List.getElem?_set_ne (by norm_num), List.getElem?_set_ne (by norm_num),
      List.getElem?_set_ne (by norm_num),
      List.getElem?_set_self (by simp only [List.length_set, hrlen]; omega)]
  have hB : (rotationsOf sB)[0]? =
      some ⟨0, 0, 3 * Real.sin (walkPhase (5/16 + 1/1.6) * 0.5)⟩ := by
    rw [rB]
    rw [List.getElem?_set_ne (by norm_num), List.getElem?_set_ne (by norm_num),
      List.getElem?_set_ne (by norm_num), List.getElem?_set_ne (by norm_num),
      List.getElem?_set_ne (by norm_num), List.getElem?_set_ne (by norm_num),
      List.getElem?_set_ne (by norm_num), List.getElem?_set_ne (by norm_num),
      List.getElem?_set_ne (by norm_num), List.getElem?_set_ne (by norm_num),
      List.getElem?_set_ne (by norm_num), List.getElem?_set_ne (by norm_num),
      List.getElem?_set_ne (by norm_num), List.getElem?_set_ne (by norm_num),
      List.getElem?_set_ne (by norm_num),
      List.getElem?_set_self (by simp only [List.length_set, hrlen]; omega)]
  rw [hEq', hB] at hA
  have hz := congrArg (fun v : Vec3 => v.z) (Option.some.inj hA)
  simp only at hz
  have hsb : Real.sin (walkPhase (5/16 + 1/1.6) * 0.5) = -1 := by
    rw [show walkPhase (5/16 + 1/1.6) * 0.5 = Real.pi + Real.pi/2 by
      unfold walkPhase; ring, Real.sin_add]
    simp
  have hsa : Real.sin (walkPhase (5/16) * 0.5) = 1 := by
    rw [show walkPhase (5/16) * 0.5 = Real.pi/2 by unfold walkPhase; ring,
      Real.sin_pi_div_two]
  rw [hsa, hsb] at hz
  norm_num at hz

/-- C4 amended: the rotation set written by the animator is exactly
periodic with period `2/stepsPerSecond = 2*(1/1.6)` — twice the claimed
step period, because root/spine/neck/head sway at half frequency
(`sin(phase*0.5)` flips sign after a single step period). -/
theorem walk_rotations_two_step_periodic (s : Skeleton) (t : ℝ) :
    (animateWalk s (t + 2 * (1/1.6))).map rotationsOf =
      (animateWalk s t).map rotationsOf := by
  by_cases h : 16 ≤ s.bones.length
  · obtain ⟨sA, eA, -, rA⟩ := animateWalk_spec s (t + 2 * (1/1.6)) (by omega)
    obtain ⟨sB, eB, -, rB⟩ := animateWalk_spec s t (by omega)
    rw [eA, eB]
    show some (rotationsOf sA) = some (rotationsOf sB)
    rw [rA, rB]
    have hph : walkPhase (t + 2 * (1/1.6)) = walkPhase t + 4 * Real.pi := by
      unfold walkPhase; ring
    have hhalf : ∀ x : ℝ, Real.sin ((x + 4 * Real.pi) * 0.5) =
        Real.sin (x * 0.5) := fun x => by
      rw [show (x + 4 * Real.pi) * 0.5 = x * 0.5 + 2 * Real.pi by ring,
        Real.sin_add_two_pi]
    have hfull : ∀ x : ℝ, Real.sin (x + 4 * Real.pi) = Real.sin x := fun x => by
      rw [show x + 4 * Real.pi = x + 2 * Real.pi + 2 * Real.pi by ring,
        Real.sin_add_two_pi, Real.sin_add_two_pi]
    have hoff : ∀ x c : ℝ, Real.sin (x + 4 * Real.pi + c) =
        Real.sin (x + c) := fun x c => by
      rw [show x + 4 * Real.pi + c = x + c + 2 * Real.pi + 2 * Real.pi by ring,
        Real.sin_add_two_pi, Real.sin_add_two_pi]
    have hoff2 : ∀ x c d : ℝ, Real.sin (x + 4 * Real.pi + c + d) =
        Real.sin (x + c + d) := fun x c d => by
      rw [show x + 4 * Real.pi + c + d = x + c + d + 2 * Real.pi + 2 * Real.pi
        by ring, Real.sin_add_two_pi, Real.sin_add_two_pi]
    rw [hph]
    simp only [hhalf, hfull, hoff, hoff2]
  · rw [animateWalk_none s _ (by omega), animateWalk_none s _ (by omega)]

/-! ## C7: orthogonality of FK transforms and the head sphere -/

/-- The upper-left 3x3 (linear) block of an affine `Mat4`. -/
def lin3 (M : Mat4) : Matrix (Fin 3) (Fin 3) ℝ :=
  !![M 0 0, M 0 1, M 0 2;
     M 1 0, M 1 1, M 1 2;
     M 2 0, M 2 1, M 2 2]

/-- A rigid affine matrix: orthonormal linear block (`LᵀL = 1`) and
standard affine bottom row `(0,0,0,1)`. -/
def OrthoAffine (M : Mat4) : Prop :=
  (lin3 M).transpose * lin3 M = 1 ∧ M 3 0 = 0 ∧ M 3 1 = 0 ∧ M 3 2 = 0 ∧ M 3 3 = 1

/-- The identity matrix is rigid. -/
theorem orthoAffine_one : OrthoAffine 1 := by
  refine ⟨?_, ?_, ?_, ?_, ?_⟩
  · ext i j
    fin_cases i <;> fin_cases j <;>
      simp [lin3, Matrix.mul_apply, Fin.sum_univ_three, Matrix.one_apply,
        Matrix.vecHead, Matrix.vecTail]
  all_goals simp [Matrix.one_apply]

/-- Translations are rigid. -/
theorem orthoAffine_translate (v : Vec3) : OrthoAffine (translate v) := by
  refine ⟨?_, ?_, ?_, ?_, ?_⟩
  · ext i j
    fin_cases i <;> fin_cases j <;>
      simp [lin3, translate, Matrix.mul_apply, Fin.sum_univ_three,
        Matrix.one_apply, Matrix.vecHead, Matrix.vecTail]
  all_goals simp [translate, Matrix.vecHead, Matrix.vecTail]

/-- X rotations are rigid. -/
theorem orthoAffine_rotX (a : ℝ) : OrthoAffine (rotX a) := by
  refine ⟨?_, ?_, ?_, ?_, ?_⟩
  · ext i j
    fin_cases i <;> fin_cases j <;>
      simp [lin3, rotX, Matrix.mul_apply, Fin.sum_univ_three,
        Matrix.one_apply, Matrix.vecHead, Matrix.vecTail] <;>
      nlinarith [Real.sin_sq_add_cos_sq a]
  all_goals simp [rotX, Matrix.vecHead, Matrix.vecTail]

/-- Y rotations are rigid. -/
theorem orthoAffine_rotY (a : ℝ) : OrthoAffine (rotY a) := by
  refine ⟨?_, ?_, ?_, ?_, ?_⟩
  · ext i j
    fin_cases i <;> fin_cases j <;>
      simp [lin3, rotY, Matrix.mul_apply, Fin.sum_univ_three,
        Matrix.one_apply, Matrix.vecHead, Matrix.vecTail] <;>
      nlinarith [Real.sin_sq_add_cos_sq a]
  all_goals simp [rotY, Matrix.vecHead, Matrix.vecTail]

/-- Z rotations are rigid. -/
theorem orthoAffine_rotZ (a : ℝ) : OrthoAffine (rotZ a) := by
  refine ⟨?_, ?_, ?_, ?_, ?_⟩
  · ext i j
    fin_cases i <;> fin_cases j <;>
      simp [lin3, rotZ, Matrix.mul_apply, Fin.sum_univ_three,
        Matrix.one_apply, Matrix.vecHead, Matrix.vecTail] <;>
      nlinarith [Real.sin_sq_add_cos_sq a]
  all_goals simp [rotZ, Matrix.vecHead, Matrix.vecTail]

/-- With a standard bottom row on the right factor, the linear block of a
product is the product of the linear blocks. -/
theorem lin3_mul (M N : Mat4) (h0 : N 3 0 = 0) (h1 : N 3 1 = 0)
    (h2 : N 3 2 = 0) : lin3 (M * N) = lin3 M * lin3 N := by
  ext i j
  fin_cases i <;> fin_cases j <;>
    simp [lin3, Matrix.mul_apply, Fin.sum_univ_three, Fin.sum_univ_four,
      Matrix.vecHead, Matrix.vecTail, h0, h1, h2]

/-- Rigid affine matrices are closed under multiplication. -/
theorem orthoAffine_mul (M N : Mat4) (hM : OrthoAffine M)
    (hN : OrthoAffine N) : OrthoAffine (M * N) := by
  obtain ⟨hML, hM0, hM1, hM2, hM3⟩ := hM
  obtain ⟨hNL, hN0, hN1, hN2, hN3⟩ := hN
  refine ⟨?_, ?_, ?_, ?_, ?_⟩
  · rw [lin3_mul M N hN0 hN1 hN2, Matrix.transpose_mul, Matrix.mul_assoc,
      ← Matrix.mul_assoc (lin3 M).transpose, hML, Matrix.one_mul, hNL]
  · simp [Matrix.mul_apply, Fin.sum_univ_four, hM0, hM1, hM2, hM3, hN0]
  · simp [Matrix.mul_apply, Fin.sum_univ_four, hM0, hM1, hM2, hM3, hN1]
  · simp [Matrix.mul_apply, Fin.sum_univ_four, hM0, hM1, hM2, hM3, hN2]
  · simp [Matrix.mul_apply, Fin.sum_univ_four, hM0, hM1, hM2, hM3, hN3]

/-- The local transform of any bone is rigid. -/
theorem orthoAffine_localMat (b : Bone) : OrthoAffine (localMat b) := by
  unfold localMat rotXYZ
  exact orthoAffine_mul _ _ (orthoAffine_translate _)
    (orthoAffine_mul _ _
      (orthoAffine_mul _ _ (orthoAffine_rotZ _) (orthoAffine_rotY _))
      (orthoAffine_rotX _))

/-- Every FK world transform is rigid (no validity assumption needed). -/
theorem orthoAffine_worldOf (bs : List Bone) (i : ℕ) :
    OrthoAffine (worldOf bs i) := by
  induction i using Nat.strong_induction_on with
  | _ i ih =>
    cases hb : bs[i]? with
    | none => rw [worldOf, hb]; exact orthoAffine_one
    | some b =>
      rw [worldOf_some bs i b hb]
      by_cases hp : 0 ≤ b.parent
      · rw [if_pos hp]
        by_cases hlt : b.parent.toNat < i
        · rw [dif_pos hlt]
          exact orthoAffine_mul _ _ (ih _ hlt) (orthoAffine_localMat b)
        · rw [dif_neg hlt]
          exact orthoAffine_mul _ _ orthoAffine_one (orthoAffine_localMat b)
      · rw [if_neg hp]
        exact orthoAffine_localMat b

/-- Component form of the orthonormality of the three basis columns of a
rigid affine matrix. -/
theorem ortho_col_dots (M : Mat4) (h : OrthoAffine M) :
    (M 0 0 * M 0 0 + M 1 0 * M 1 0 + M 2 0 * M 2 0 = 1) ∧
    (M 0 1 * M 0 1 + M 1 1 * M 1 1 + M 2 1 * M 2 1 = 1) ∧
    (M 0 2 * M 0 2 + M 1 2 * M 1 2 + M 2 2 * M 2 2 = 1) ∧
    (M 0 0 * M 0 1 + M 1 0 * M 1 1 + M 2 0 * M 2 1 = 0) ∧
    (M 0 0 * M 0 2 + M 1 0 * M 1 2 + M 2 0 * M 2 2 = 0) ∧
    (M 0 1 * M 0 2 + M 1 1 * M 1 2 + M 2 1 * M 2 2 = 0) := by
  refine ⟨?_, ?_, ?_, ?_, ?_, ?_⟩
  · have h0 := congrFun (congrFun h.1 0) 0
    simp [lin3, Matrix.mul_apply, Fin.sum_univ_three, Matrix.transpose_apply,
      Matrix.one_apply, Matrix.vecHead, Matrix.vecTail] at h0
    linarith [h0]
  · have h0 := congrFun (congrFun h.1 1) 1
    simp [lin3, Matrix.mul_apply, Fin.sum_univ_three, Matrix.transpose_apply,
      Matrix.one_apply, Matrix.vecHead, Matrix.vecTail] at h0
    linarith [h0]
  · have h0 := congrFun (congrFun h.1 2) 2
    simp [lin3, Matrix.mul_apply, Fin.sum_univ_three, Matrix.transpose_apply,
      Matrix.one_apply, Matrix.vecHead, Matrix.vecTail] at h0
    linarith [h0]
  · have h0 := congrFun (congrFun h.1 0) 1
    simp [lin3, Matrix.mul_apply, Fin.sum_univ_three, Matrix.transpose_apply,
      Matrix.one_apply, Matrix.vecHead, Matrix.vecTail] at h0
    linarith [h0]
  · have h0 := congrFun (congrFun h.1 0) 2
    simp [lin3, Matrix.mul_apply, Fin.sum_univ_three, Matrix.transpose_apply,
      Matrix.one_apply, Matrix.vecHead, Matrix.vecTail] at h0
    linarith [h0]
  · have h0 := congrFun (congrFun h.1 1) 2
    simp [lin3, Matrix.mul_apply, Fin.sum_univ_three, Matrix.transpose_apply,
      Matrix.one_apply, Matrix.vecHead, Matrix.vecTail] at h0
    linarith [h0]

/-- Normalizing a unit vector is the identity. -/
theorem normalize3_unit (v : Vec3) (h : dot3 v v = 1) : normalize3 v = v := by
  unfold normalize3 norm3
  rw [h, Real.sqrt_one, inv_one]
  ext <;> simp

/-- Transforming the X axis direction reads off column 0. -/
theorem mulDir_axisX (M : Mat4) :
    mulDir M ⟨1, 0, 0⟩ = ⟨M 0 0, M 1 0, M 2 0⟩ := by
  unfold mulDir
  ext <;> dsimp <;> ring

/-- Transforming the Y axis direction reads off column 1. -/
theorem mulDir_axisY (M : Mat4) :
    mulDir M ⟨0, 1, 0⟩ = ⟨M 0 1, M 1 1, M 2 1⟩ := by
  unfold mulDir
  ext <;> dsimp <;> ring

/-- Transforming the Z axis direction reads off column 2. -/
theorem mulDir_axisZ (M : Mat4) :
    mulDir M ⟨0, 0, 1⟩ = ⟨M 0 2, M 1 2, M 2 2⟩ := by
  unfold mulDir
  ext <;> dsimp <;> ring

/-- Vector cancellation `a + b - a = b`. -/
theorem add_sub_cancel3 (a b : Vec3) : a + b - a = b := by
  ext <;> simp

/-- Norm of a scaled unit combination of the orthonormal columns. -/
theorem norm3_ortho_combo (g : Mat4) (a b c r : ℝ)
    (h1 : g 0 0 * g 0 0 + g 1 0 * g 1 0 + g 2 0 * g 2 0 = 1)
    (h2 : g 0 1 * g 0 1 + g 1 1 * g 1 1 + g 2 1 * g 2 1 = 1)
    (h3 : g 0 2 * g 0 2 + g 1 2 * g 1 2 + g 2 2 * g 2 2 = 1)
    (h4 : g 0 0 * g 0 1 + g 1 0 * g 1 1 + g 2 0 * g 2 1 = 0)
    (h5 : g 0 0 * g 0 2 + g 1 0 * g 1 2 + g 2 0 * g 2 2 = 0)
    (h6 : g 0 1 * g 0 2 + g 1 1 * g 1 2 + g 2 1 * g 2 2 = 0)
    (habc : a ^ 2 + b ^ 2 + c ^ 2 = 1) (hr : 0 ≤ r) :
    norm3 (r • (a • (⟨g 0 0, g 1 0, g 2 0⟩ : Vec3) +
      b • (⟨g 0 1, g 1 1, g 2 1⟩ : Vec3) +
        c • (⟨g 0 2, g 1 2, g 2 2⟩ : Vec3))) = r := by
  have hd : dot3 (r • (a • (⟨g 0 0, g 1 0, g 2 0⟩ : Vec3) +
      b • (⟨g 0 1, g 1 1, g 2 1⟩ : Vec3) +
        c • (⟨g 0 2, g 1 2, g 2 2⟩ : Vec3)))
      (r • (a • (⟨g 0 0, g 1 0, g 2 0⟩ : Vec3) +
      b • (⟨g 0 1, g 1 1, g 2 1⟩ : Vec3) +
        c • (⟨g 0 2, g 1 2, g 2 2⟩ : Vec3))) = r ^ 2 := by
    simp only [dot3, Vec3.add_x, Vec3.add_y, Vec3.add_z, Vec3.smul_x,
      Vec3.smul_y, Vec3.smul_z]
    linear_combination (r^2*a^2) * h1 + (r^2*b^2) * h2 + (r^2*c^2) * h3 +
      (2*r^2*a*b) * h4 + (2*r^2*a*c) * h5 + (2*r^2*b*c) * h6 + r^2 * habc
  unfold norm3
  rw [hd, Real.sqrt_sq hr]

/-- Every UV-sphere sample point lies at distance `headRadius` from the
sphere centre, provided the head bone's transform is rigid and the radius
is non-negative. -/
theorem spherePoint_dist (s : Skeleton) (nst nsl : ℕ) (i j : ℕ)
    (ho : OrthoAffine (headBone s).global) (hr : 0 ≤ headRadius s) :
    norm3 (spherePoint s nst nsl i j - headCenter s) = headRadius s := by
  obtain ⟨h1, h2, h3, h4, h5, h6⟩ := ortho_col_dots _ ho
  have hX : normalize3 (mulDir (headBone s).global ⟨1, 0, 0⟩) =
      ⟨(headBone s).global 0 0, (headBone s).global 1 0,
        (headBone s).global 2 0⟩ := by
    rw [mulDir_axisX]
    exact normalize3_unit _ (by unfold dot3; dsimp; linarith)
  have hY : headUp s =
      ⟨(headBone s).global 0 1, (headBone s).global 1 1,
        (headBone s).global 2 1⟩ := by
    unfold headUp
    rw [mulDir_axisY]
    exact normalize3_unit _ (by unfold dot3; dsimp; linarith)
  have hZ : normalize3 (mulDir (headBone s).global ⟨0, 0, 1⟩) =
      ⟨(headBone s).global 0 2, (headBone s).global 1 2,
        (headBone s).global 2 2⟩ := by
    rw [mulDir_axisZ]
    exact normalize3_unit _ (by unfold dot3; dsimp; linarith)
  unfold spherePoint
  dsimp only
  rw [hX, hY, hZ, add_sub_cancel3]
  have habc : (Real.sin ((i : ℝ) / (nst : ℝ) * Real.pi) *
        Real.cos ((j : ℝ) / (nsl : ℝ) * (2 * Real.pi))) ^ 2 +
      (Real.cos ((i : ℝ) / (nst : ℝ) * Real.pi)) ^ 2 +
      (Real.sin ((i : ℝ) / (nst : ℝ) * Real.pi) *
        Real.sin ((j : ℝ) / (nsl : ℝ) * (2 * Real.pi))) ^ 2 = 1 := by
    linear_combination (Real.sin ((i : ℝ) / (nst : ℝ) * Real.pi))^2 *
        Real.sin_sq_add_cos_sq ((j : ℝ) / (nsl : ℝ) * (2 * Real.pi)) +
      Real.sin_sq_add_cos_sq ((i : ℝ) / (nst : ℝ) * Real.pi)
  exact norm3_ortho_combo _ _ _ _ _ h1 h2 h3 h4 h5 h6 habc hr

/-- Every vertex of the head triangle list is a UV-sphere sample point. -/
theorem mem_headTris (s : Skeleton) (nst nsl : ℕ) (v : TriVertex)
    (hv : v ∈ buildHeadSphereTris s nst nsl) :
    ∃ i j, v.pos = spherePoint s nst nsl i j := by
  unfold buildHeadSphereTris at hv
  by_cases h3 : s.bones.length ≤ 3
  · rw [if_pos h3] at hv
    cases hv
  · rw [if_neg h3] at hv
    simp only [List.mem_flatMap] at hv
    obtain ⟨i, -, j, -, hmem⟩ := hv
    simp only [List.mem_cons, List.not_mem_nil, or_false] at hmem
    rcases hmem with rfl | rfl | rfl | rfl | rfl | rfl
    · exact ⟨i, j, rfl⟩
    · exact ⟨i + 1, j, rfl⟩
    · exact ⟨i + 1, j + 1, rfl⟩
    · exact ⟨i, j, rfl⟩
    · exact ⟨i + 1, j + 1, rfl⟩
    · exact ⟨i, j + 1, rfl⟩

/-- C7: for every valid skeleton containing the head slot (with its usual
non-negative bone length) posed by FK evaluation, and all tessellation
parameters at least 3x3, every vertex emitted by `buildHeadSphereTris`
lies at exactly `headRadius` (0.6 x head length) distance from the sphere
centre (neck joint offset by the radius along the head's world up-axis). -/
theorem head_sphere_radius (s : Skeleton) (nst nsl : ℕ)
    (hv : ValidParents s) (h3 : 3 < s.bones.length)
    (hlen : 0 ≤ (s.bones.getD 3 default).length)
    (hst : 3 ≤ nst) (hsl : 3 ≤ nsl) (v : TriVertex)
    (hmem : v ∈ buildHeadSphereTris (updateGlobals s) nst nsl) :
    norm3 (v.pos - headCenter (updateGlobals s)) =
      headRadius (updateGlobals s) := by
  obtain ⟨b, hb⟩ : ∃ b, s.bones[3]? = some b :=
    ⟨_, List.getElem?_eq_getElem h3⟩
  have hgetD : s.bones.getD 3 default = b := by
    rw [List.getD_eq_getElem?_getD, hb]; rfl
  have hhead : headBone (updateGlobals s) =
      { b with global := worldOf s.bones 3 } := by
    unfold headBone
    rw [List.getD_eq_getElem?_getD, updateGlobals_getElem? s hv 3 h3, hb]
    rfl
  have ho : OrthoAffine (headBone (updateGlobals s)).global := by
    rw [hhead]
    exact orthoAffine_worldOf s.bones 3
  have hr : 0 ≤ headRadius (updateGlobals s) := by
    unfold headRadius
    rw [hhead]
    have hbl : 0 ≤ b.length := by rw [← hgetD]; exact hlen
    have : (0.6 : ℝ) ≥ 0 := by norm_num
    exact mul_nonneg hbl this
  obtain ⟨i, j, hij⟩ := mem_headTris _ _ _ v hmem
  rw [hij]
  exact spherePoint_dist (updateGlobals s) nst nsl i j ho hr

/-- C7 witness: the rig at the minimal 3x3 tessellation, checked on the
first emitted vertex. -/
theorem head_sphere_radius_witness :
    ValidParents makeHuman ∧ 3 < makeHuman.bones.length ∧
    0 ≤ (makeHuman.bones.getD 3 default).length ∧ (3 ≤ 3 ∧ 3 ≤ 3) ∧
    (⟨spherePoint (updateGlobals makeHuman) 3 3 0 0, headColor⟩ : TriVertex) ∈
      buildHeadSphereTris (updateGlobals makeHuman) 3 3 ∧
    norm3 ((⟨spherePoint (updateGlobals makeHuman) 3 3 0 0, headColor⟩ :
        TriVertex).pos - headCenter (updateGlobals makeHuman)) =
      headRadius (updateGlobals makeHuman) := by
  have hlen3 : 3 < makeHuman.bones.length := by rw [makeHuman_length]; omega
  have hprop : 0 ≤ (makeHuman.bones.getD 3 default).length := by
    rw [show (makeHuman.bones.getD 3 default).length = 0.22 from rfl]
    norm_num
  have hmem : (⟨spherePoint (updateGlobals makeHuman) 3 3 0 0, headColor⟩ :
      TriVertex) ∈ buildHeadSphereTris (updateGlobals makeHuman) 3 3 := by
    unfold buildHeadSphereTris
    rw [if_neg (by rw [updateGlobals_length, makeHuman_length]; omega)]
    refine List.mem_flatMap.mpr ⟨0, by simp, List.mem_flatMap.mpr
      ⟨0, by simp, ?_⟩⟩
    exact List.mem_cons_self _ _
  exact ⟨makeHuman_validParents, hlen3, hprop, ⟨le_rfl, le_rfl⟩, hmem,
    head_sphere_radius makeHuman 3 3 makeHuman_validParents hlen3 hprop
      le_rfl le_rfl _ hmem⟩

end Skel
